import Mathlib

/-!
Verification of the ReservsaTB loyalty system: a shallow embedding of
`models.py`, `config.py`, `repositories.py`, `strategies.py` and `report.py`,
followed by theorems settling the specification claims.

Dates and datetimes are modelled structurally (year, month, day, seconds
within the day); reservation timestamps in the program come from
`Reservation.parse_iso`, which yields minute resolution, so second
resolution captures every representable timestamp.
-/

namespace Reservas

/-- Calendar date as in Python `datetime.date`: year, month (1-12), day (1-31).
Validity of the fields is tracked by the predicate `Date.Valid`. -/
structure Date where
  year : Int
  month : Nat
  day : Nat
deriving DecidableEq, Repr

/-- The Python leap-year test as written in `strategies.months_ago` and in the
inner `add_months` of `repositories.visits_by_month`:
`y % 4 == 0 and (y % 100 != 0 or y % 400 == 0)`.  Python `%` with a positive
modulus agrees with `Int.emod` of Lean. -/
def isLeap (y : Int) : Bool :=
  y % 4 == 0 && (y % 100 != 0 || y % 400 == 0)

/-- The month-length table
`[31, 29 if leap else 28, 31, 30, 31, 30, 31, 31, 30, 31, 30, 31]`
indexed with `m - 1`, shared verbatim by `months_ago` and `add_months`. -/
def monthLength (y : Int) (m : Nat) : Nat :=
  [31, if isLeap y then 29 else 28, 31, 30, 31, 30, 31, 31, 30, 31, 30, 31].getD (m - 1) 0

/-- A date is valid when its month is 1-12 and its day fits the month. -/
def Date.Valid (d : Date) : Prop :=
  1 ≤ d.month ∧ d.month ≤ 12 ∧ 1 ≤ d.day ∧ d.day ≤ monthLength d.year d.month

instance (d : Date) : Decidable d.Valid := by
  unfold Date.Valid
  exact inferInstance

/-- The `while m <= 0: m += 12; y -= 1` loop of `strategies.months_ago`. -/
def normalizeYM (y m : Int) : Int × Int :=
  if m ≤ 0 then normalizeYM (y - 1) (m + 12) else (y, m)
termination_by (1 - m).toNat
decreasing_by omega

/-- `strategies.months_ago(as_of, months)`: go back `months` calendar months,
clamping the day to the length of the target month. -/
def months_ago (as_of : Date) (months : Nat) : Date :=
  let ym := normalizeYM as_of.year ((as_of.month : Int) - (months : Int))
  let y := ym.1
  let m := ym.2.toNat
  ⟨y, m, min as_of.day (monthLength y m)⟩

/-- The inner `add_months(d, m)` of `repositories.visits_by_month`:
`y = d.year + (d.month - 1 + m) // 12`, `m2 = (d.month - 1 + m) % 12 + 1`,
day clamped.  Python `//` and `%` are floor division and floor modulus,
i.e. `Int.fdiv` and `Int.fmod`. -/
def add_months (d : Date) (m : Int) : Date :=
  let y := d.year + ((d.month : Int) - 1 + m).fdiv 12
  let m2 := (((d.month : Int) - 1 + m).fmod 12).toNat + 1
  ⟨y, m2, min d.day (monthLength y m2)⟩

/-- A point in time: a date plus seconds within the day (0-86399 when valid).
`datetime.min.time()` is second 0; `datetime.max.time()` and
`.replace(hour=23, minute=59, second=59)` are both second 86399 at this
resolution. -/
structure DateTime where
  d : Date
  sec : Nat
deriving DecidableEq, Repr

/-- A datetime is valid when its date is and its seconds fit in a day. -/
def DateTime.Valid (t : DateTime) : Prop :=
  t.d.Valid ∧ t.sec ≤ 86399

/-- Python `date` comparison: lexicographic on (year, month, day). -/
def Date.le (a b : Date) : Prop :=
  a.year < b.year ∨ (a.year = b.year ∧
    (a.month < b.month ∨ (a.month = b.month ∧ a.day ≤ b.day)))

instance (a b : Date) : Decidable (Date.le a b) := by
  unfold Date.le
  exact inferInstance

/-- Python `datetime` comparison: lexicographic on (year, month, day, time). -/
def DateTime.le (a b : DateTime) : Prop :=
  a.d.year < b.d.year ∨ (a.d.year = b.d.year ∧
    (a.d.month < b.d.month ∨ (a.d.month = b.d.month ∧
      (a.d.day < b.d.day ∨ (a.d.day = b.d.day ∧ a.sec ≤ b.sec)))))

instance (a b : DateTime) : Decidable (DateTime.le a b) := by
  unfold DateTime.le
  exact inferInstance

/-- `models.LoyaltyTier`. -/
structure LoyaltyTier where
  name : String
  priority : Int
deriving DecidableEq, Repr

/-- `models.LoyaltyRule`. -/
structure LoyaltyRule where
  min_visits : Int
  window_months : Nat
  resulting_tier : LoyaltyTier
deriving DecidableEq, Repr

/-- `LoyaltyRule.applies`: `visits_in_window >= self.min_visits`. -/
def LoyaltyRule.applies (r : LoyaltyRule) (visits_in_window : Int) : Bool :=
  decide (r.min_visits ≤ visits_in_window)

/-- `models.Customer`. -/
structure Customer where
  id : String
  name : String
  email : String
  phone : String
deriving DecidableEq, Repr

/-- `models.Reservation`. -/
structure Reservation where
  id : String
  customer_id : String
  dt : DateTime
  party_size : Nat
deriving DecidableEq, Repr

/-- The filter of `VisitRepository.count_visits` (also the membership test of
`visits_by_month`): `r.customer_id == customer_id and start_dt <= r.dt <= end_dt`. -/
def inWindow (customer_id : String) (start_dt end_dt : DateTime) (r : Reservation) : Bool :=
  r.customer_id == customer_id && decide (DateTime.le start_dt r.dt)
    && decide (DateTime.le r.dt end_dt)

/-- `VisitRepository.count_visits`: filter the reservations of the repository to the
customer and the inclusive range; with `unique_per_day` count distinct dates
(`len({r.dt.date() for r in res})`), otherwise raw matches (`len(res)`).
The repository is modelled by its `get_reservations()` list. -/
def count_visits (events : List Reservation) (customer_id : String)
    (start_dt end_dt : DateTime) (unique_per_day : Bool) : Nat :=
  let res := events.filter (inWindow customer_id start_dt end_dt)
  if unique_per_day then ((res.map fun r => r.dt.d).dedup).length
  else res.length

/-- The `(r.dt.year, r.dt.month)` bucket key of `visits_by_month`. -/
def visitKey (r : Reservation) : Int × Nat :=
  (r.dt.d.year, r.dt.d.month)

/-- The `counts` defaultdict of `visits_by_month`, built by one pass over the
reservations, incrementing the month bucket of the event when the event matches the
customer and lies in the window. -/
def countsFold (events : List Reservation) (customer_id : String)
    (start_dt end_dt : DateTime) : (Int × Nat) → Nat :=
  events.foldl
    (fun counts r =>
      if inWindow customer_id start_dt end_dt r then
        fun k => if k = visitKey r then counts k + 1 else counts k
      else counts)
    fun _ => 0

/-- The zero-fill loop of `visits_by_month`: starting at `cur`, emit
`(cur.year, cur.month)` and step `cur = add_months(cur, 1)`, `months` times. -/
def monthKeys (cur : Date) : Nat → List (Int × Nat)
  | 0 => []
  | n + 1 => (cur.year, cur.month) :: monthKeys (add_months cur 1) n

/-- `VisitRepository.visits_by_month(customer_id, months, as_of)`, modelled as
the association list produced by the final zero-fill loop (Python builds an
insertion-ordered dict `out` the same way): the window starts at the first day
of the month `months - 1` months before `as_of` and ends at `as_of` 23:59:59. -/
def visits_by_month (events : List Reservation) (customer_id : String)
    (months : Nat) (as_of : Date) : List ((Int × Nat) × Nat) :=
  let start_month := add_months ⟨as_of.year, as_of.month, 1⟩ (-((months : Int) - 1))
  let start_dt : DateTime := ⟨start_month, 0⟩
  let end_dt : DateTime := ⟨as_of, 86399⟩
  let counts := countsFold events customer_id start_dt end_dt
  (monthKeys start_month months).map fun k => (k, counts k)

/-- `strategies.VisitsInWindowStrategy` (its three dataclass fields). -/
structure VisitsInWindowStrategy where
  rules_desc : List LoyaltyRule
  window_months : Nat := 3
  unique_per_day : Bool := true

/-- `VisitsInWindowStrategy.classify`: count visits in
`[months_ago(as_of, window) at 00:00:00, as_of at end of day]`, then return the
resulting tier of the first rule whose window matches and whose threshold the
count meets (`continue` skips non-matching windows), else `Regular`/0. -/
def classify (s : VisitsInWindowStrategy) (customer : Customer) (as_of : Date)
    (events : List Reservation) : LoyaltyTier :=
  let start_dt : DateTime := ⟨months_ago as_of s.window_months, 0⟩
  let end_dt : DateTime := ⟨as_of, 86399⟩
  let count := count_visits events customer.id start_dt end_dt s.unique_per_day
  match s.rules_desc.find?
      (fun r => r.window_months == s.window_months && r.applies (count : Int)) with
  | some r => r.resulting_tier
  | none => ⟨"Regular", 0⟩

/-- The default rules installed by `Config.__init__`. -/
def defaultRules : List LoyaltyRule :=
  [⟨4, 3, ⟨"Super VIP", 2⟩⟩, ⟨2, 3, ⟨"VIP", 1⟩⟩]

/-- `Config.set_rules`: `sorted(rules, key=lambda r: r.min_visits, reverse=True)`
(a stable sort, descending by `min_visits`). -/
def set_rules (rules : List LoyaltyRule) : List LoyaltyRule :=
  rules.mergeSort fun a b => decide (b.min_visits ≤ a.min_visits)

/-- `Config.get_rules`: returns (a copy of) the stored rules. -/
def get_rules (rules : List LoyaltyRule) : List LoyaltyRule :=
  rules

/-- Python `str.lower()`, character by character. -/
def lowerStr (s : String) : String :=
  ⟨s.data.map Char.toLower⟩

/-- The comparison induced by `rows.sort(key=lambda x: (-x[1], x[0].name.lower()))`:
tuple keys compare lexicographically. -/
def rankLe (a b : Customer × Nat) : Bool :=
  decide (-(a.2 : Int) < -(b.2 : Int)) ||
    (a.2 == b.2 && decide (lowerStr a.1.name ≤ lowerStr b.1.name))

/-- `ReportService.ranking_top_customers(months, as_of)`: one row per known
customer with its deduplicated visit count over
`[months_ago(as_of, months) at 00:00:00, as_of at end of day]`, sorted by
`(-visits, name.lower())`. -/
def ranking_top_customers (events : List Reservation) (customers : List Customer)
    (months : Nat) (as_of : Date) : List (Customer × Nat) :=
  let start_dt : DateTime := ⟨months_ago as_of months, 0⟩
  let end_dt : DateTime := ⟨as_of, 86399⟩
  let rows := customers.map fun c => (c, count_visits events c.id start_dt end_dt true)
  rows.mergeSort rankLe

/-! Helper notions and lemmas used by several claim theorems. -/

/-- Month index of a date: the number of months from year 0, disregarding the
day.  Two dates with months in 1-12 share a month index iff they lie in the
same calendar month. -/
def ymIndexD (d : Date) : Int :=
  12 * d.year + (d.month : Int) - 1

/-- Month index of a `(year, month)` bucket key. -/
def ymIndexP (k : Int × Nat) : Int :=
  12 * k.1 + (k.2 : Int) - 1

theorem normalizeYM_eq (y m : Int) (h : 0 < m) : normalizeYM y m = (y, m) := by
  rw [normalizeYM]
  simp [Int.not_le.mpr h]

theorem normalizeYM_step (y m : Int) (h : m ≤ 0) :
    normalizeYM y m = normalizeYM (y - 1) (m + 12) := by
  rw [normalizeYM]
  simp [h]

theorem normalizeYM_spec (y m : Int) :
    12 * (normalizeYM y m).1 + (normalizeYM y m).2 = 12 * y + m ∧
      (m ≤ 12 → 1 ≤ (normalizeYM y m).2 ∧ (normalizeYM y m).2 ≤ 12) := by
  suffices h : ∀ k : Nat, ∀ y m : Int, (1 - m).toNat ≤ k →
      12 * (normalizeYM y m).1 + (normalizeYM y m).2 = 12 * y + m ∧
        (m ≤ 12 → 1 ≤ (normalizeYM y m).2 ∧ (normalizeYM y m).2 ≤ 12) by
    exact h (1 - m).toNat y m le_rfl
  intro k
  induction k with
  | zero =>
    intro y m h
    have hm : 0 < m := by omega
    rw [normalizeYM_eq y m hm]
    exact ⟨rfl, fun h12 => ⟨hm, h12⟩⟩
  | succ k ih =>
    intro y m h
    by_cases hm : m ≤ 0
    · rw [normalizeYM_step y m hm]
      have := ih (y - 1) (m + 12) (by omega)
      constructor
      · omega
      · intro _
        exact this.2 (by omega)
    · rw [normalizeYM_eq y m (by omega)]
      exact ⟨rfl, fun h12 => ⟨by omega, h12⟩⟩

theorem monthLength_ge (y : Int) (m : Nat) (h1 : 1 ≤ m) (h2 : m ≤ 12) :
    28 ≤ monthLength y m := by
  have hleap : monthLength y 2 = 29 ∨ monthLength y 2 = 28 := by
    simp only [monthLength, List.getD]
    split <;> simp
  interval_cases m <;> first
    | omega
    | simp [monthLength, List.getD]

theorem DateTime.le_trans' {a b c : DateTime} (h1 : a.le b) (h2 : b.le c) : a.le c := by
  obtain ⟨⟨y1, m1, d1⟩, s1⟩ := a
  obtain ⟨⟨y2, m2, d2⟩, s2⟩ := b
  obtain ⟨⟨y3, m3, d3⟩, s3⟩ := c
  simp only [DateTime.le] at *
  omega

/-- `add_months` adds exactly `m` to the month index and lands in a month 1-12,
provided the input month is 1-12. -/
theorem add_months_spec (d : Date) (m : Int) :
    ymIndexD (add_months d m) = ymIndexD d + m ∧
      1 ≤ (add_months d m).month ∧ (add_months d m).month ≤ 12 := by
  have h12 : (0 : Int) < 12 := by omega
  have hq := Int.fmod_add_fdiv ((d.month : Int) - 1 + m) 12
  have hr0 : 0 ≤ ((d.month : Int) - 1 + m).fmod 12 :=
    Int.fmod_nonneg' ((d.month : Int) - 1 + m) h12
  have hrlt : ((d.month : Int) - 1 + m).fmod 12 < 12 :=
    Int.fmod_lt_of_pos ((d.month : Int) - 1 + m) h12
  simp only [add_months, ymIndexD]
  omega

theorem monthKeys_length (cur : Date) (n : Nat) : (monthKeys cur n).length = n := by
  induction n generalizing cur with
  | zero => rfl
  | succ n ih => simp [monthKeys, ih]

/-- Membership in the zero-fill key list: exactly the `(year, month)` pairs
whose month is 1-12 and whose month index lies in the `n`-month range starting
at the month of `cur`. -/
theorem monthKeys_mem (n : Nat) (cur : Date) (h1 : 1 ≤ cur.month)
    (h2 : cur.month ≤ 12) (k : Int × Nat) :
    k ∈ monthKeys cur n ↔
      1 ≤ k.2 ∧ k.2 ≤ 12 ∧ ymIndexD cur ≤ ymIndexP k ∧
        ymIndexP k ≤ ymIndexD cur + n - 1 := by
  induction n generalizing cur with
  | zero =>
    simp only [monthKeys, List.not_mem_nil, false_iff]
    simp only [ymIndexD, ymIndexP]
    omega
  | succ n ih =>
    obtain ⟨k1, k2⟩ := k
    have hnext := add_months_spec cur 1
    rw [monthKeys, List.mem_cons, ih (add_months cur 1) (by omega) (by omega)]
    simp only [ymIndexD, ymIndexP, Prod.mk.injEq] at *
    omega

theorem monthKeys_getElem (n : Nat) (cur : Date) (h1 : 1 ≤ cur.month)
    (h2 : cur.month ≤ 12) (i : Nat) (hi : i < n)
    (hg : i < (monthKeys cur n).length) :
    1 ≤ (monthKeys cur n)[i].2 ∧ (monthKeys cur n)[i].2 ≤ 12 ∧
      ymIndexP (monthKeys cur n)[i] = ymIndexD cur + i := by
  induction n generalizing cur i with
  | zero => omega
  | succ n ih =>
    match i with
    | 0 =>
      simp only [monthKeys, List.getElem_cons_zero, ymIndexP, ymIndexD] at *
      omega
    | i + 1 =>
      have hnext := add_months_spec cur 1
      have := ih (add_months cur 1) (by omega) (by omega) i (by omega)
        (by rw [monthKeys_length]; omega)
      simp only [monthKeys, List.getElem_cons_succ, ymIndexP, ymIndexD] at *
      omega

/-- Unrolling the `counts` fold: the bucket of key `k` holds the number of
in-window reservations of the customer whose `(year, month)` is `k`. -/
theorem countsFold_eq (events : List Reservation) (cid : String) (s e : DateTime)
    (k : Int × Nat) :
    countsFold events cid s e k =
      (events.filter fun r => inWindow cid s e r && decide (visitKey r = k)).length := by
  suffices h : ∀ acc : (Int × Nat) → Nat,
      (events.foldl
        (fun counts r =>
          if inWindow cid s e r then
            fun kk => if kk = visitKey r then counts kk + 1 else counts kk
          else counts) acc) k
        = acc k + (events.filter fun r => inWindow cid s e r && decide (visitKey r = k)).length by
    simpa [countsFold] using h fun _ => 0
  induction events with
  | nil => intro acc; simp
  | cons r es ih =>
    intro acc
    rw [List.foldl_cons, ih]
    by_cases hw : inWindow cid s e r = true
    · by_cases hk : visitKey r = k
      · simp [List.filter_cons, hw, hk]
        omega
      · have hkk : ¬(k = visitKey r) := fun hkk => hk hkk.symm
        simp [List.filter_cons, hw, hk, hkk]
    · have hw' : inWindow cid s e r = false := by simpa using hw
      simp [List.filter_cons, hw']

theorem length_filter_or_disjoint {α : Type} (a b : α → Bool)
    (h : ∀ x, ¬(a x = true ∧ b x = true)) (l : List α) :
    (l.filter fun x => a x || b x).length = (l.filter a).length + (l.filter b).length := by
  induction l with
  | nil => simp
  | cons x xs ih =>
    by_cases hax : a x = true
    · have hbx : ¬b x = true := fun hb => h x ⟨hax, hb⟩
      simp only [List.filter_cons, hax, Bool.true_or, if_true, List.length_cons, ih]
      simp [hbx]
      omega
    · have hax' : a x = false := by simpa using hax
      by_cases hbx : b x = true
      · simp [List.filter_cons, hax', hbx, ih]
        omega
      · simp [List.filter_cons, hax', hbx, ih]

/-- Summing the bucket counts over a duplicate-free key list counts each
reservation whose key lies in the list exactly once. -/
theorem sum_buckets (p : Reservation → Bool) (es : List Reservation) :
    ∀ L : List (Int × Nat), L.Nodup →
      (L.map fun k => (es.filter fun r => p r && decide (visitKey r = k)).length).sum
        = (es.filter fun r => p r && decide (visitKey r ∈ L)).length := by
  intro L
  induction L with
  | nil => intro _; simp
  | cons k L ih =>
    intro hnd
    rw [List.nodup_cons] at hnd
    have hsplit : (es.filter fun r => p r && decide (visitKey r ∈ k :: L))
        = es.filter fun r =>
            (p r && decide (visitKey r = k)) || (p r && decide (visitKey r ∈ L)) := by
      apply List.filter_congr
      intro r _
      by_cases h1 : visitKey r = k <;> by_cases h2 : visitKey r ∈ L <;>
        cases hp : p r <;> simp [h1, h2, hp]
    have hdisj : ∀ x, ¬((p x && decide (visitKey x = k)) = true ∧
        (p x && decide (visitKey x ∈ L)) = true) := by
      intro x hx
      simp only [Bool.and_eq_true, decide_eq_true_eq] at hx
      exact hnd.1 (hx.1.2 ▸ hx.2.2)
    rw [List.map_cons, List.sum_cons, ih hnd.2, hsplit,
      length_filter_or_disjoint _ _ hdisj]

/-- A reservation inside the `visits_by_month` window lies, month-index-wise,
between the starting month of the window and the month of `as_of`. -/
theorem window_ym_bounds (sm aso : Date) (t : DateTime)
    (hr1 : 1 ≤ t.d.month) (hr2 : t.d.month ≤ 12)
    (ha1 : 1 ≤ aso.month) (ha2 : aso.month ≤ 12)
    (hs1 : 1 ≤ sm.month) (hs2 : sm.month ≤ 12)
    (hlo : DateTime.le ⟨sm, 0⟩ t) (hhi : DateTime.le t ⟨aso, 86399⟩) :
    ymIndexD sm ≤ ymIndexD t.d ∧ ymIndexD t.d ≤ ymIndexD aso := by
  obtain ⟨⟨ty, tm, td⟩, ts⟩ := t
  simp only [DateTime.le, ymIndexD] at *
  omega

theorem monthKeys_nodup (n : Nat) (cur : Date) : (monthKeys cur n).Nodup := by
  induction n generalizing cur with
  | zero => exact List.nodup_nil
  | succ n ih =>
    rw [monthKeys, List.nodup_cons]
    refine ⟨fun hmem => ?_, ih (add_months cur 1)⟩
    have hnext := add_months_spec cur 1
    rw [monthKeys_mem n (add_months cur 1) (by omega) (by omega)] at hmem
    simp only [ymIndexD, ymIndexP] at hmem hnext
    omega

theorem perm_pair_eq {α : Type} {l : List α} {a : α} (h : l.Perm [a, a]) : l = [a, a] := by
  have hl := h.length_eq
  match l, hl with
  | [x, y], _ =>
    have hx : x ∈ [a, a] := h.mem_iff.mp (by simp)
    have hy : y ∈ [a, a] := h.mem_iff.mp (by simp)
    simp only [List.mem_cons, List.not_mem_nil, or_false, or_self] at hx hy
    simp [hx, hy]

/-! The claim theorems. -/

/-- C9: with an empty rule list, `classify` returns the baseline tier
`("Regular", 0)` for every customer, reference date and visit history,
and never raises. -/
theorem C9_classify_empty_rules (window_months : Nat) (unique_per_day : Bool)
    (c : Customer) (as_of : Date) (events : List Reservation) :
    classify ⟨[], window_months, unique_per_day⟩ c as_of events = ⟨"Regular", 0⟩ :=
  rfl

/-- C7: for the same repository, customer and range, the deduplicated count
never exceeds the raw count. -/
theorem C7_unique_le_raw (events : List Reservation) (customer_id : String)
    (start_dt end_dt : DateTime) :
    count_visits events customer_id start_dt end_dt true ≤
      count_visits events customer_id start_dt end_dt false := by
  simp only [count_visits, if_true, Bool.false_eq_true, if_false]
  exact le_trans (List.Sublist.length_le (List.dedup_sublist _))
    (le_of_eq (List.length_map _ _))

/-- C6: `count_visits` counts exactly the reservations of the given customer
with `start_dt ≤ dt ≤ end_dt`; with `unique_per_day` it counts the distinct
calendar dates among them, otherwise the raw occurrences; it is 0 whenever no
reservation belongs to the customer or the range is empty. -/
theorem C6_count_visits_spec (events : List Reservation) (customer_id : String)
    (start_dt end_dt : DateTime) (unique_per_day : Bool) :
    (∀ r : Reservation, inWindow customer_id start_dt end_dt r = true ↔
      r.customer_id = customer_id ∧ DateTime.le start_dt r.dt ∧ DateTime.le r.dt end_dt) ∧
    count_visits events customer_id start_dt end_dt false
      = (events.filter (inWindow customer_id start_dt end_dt)).length ∧
    count_visits events customer_id start_dt end_dt true
      = ((events.filter (inWindow customer_id start_dt end_dt)).map
          fun r => r.dt.d).toFinset.card ∧
    ((∀ r ∈ events, r.customer_id ≠ customer_id) →
      count_visits events customer_id start_dt end_dt unique_per_day = 0) ∧
    (¬DateTime.le start_dt end_dt →
      count_visits events customer_id start_dt end_dt unique_per_day = 0) := by
  have hdecode : ∀ r : Reservation, inWindow customer_id start_dt end_dt r = true ↔
      r.customer_id = customer_id ∧ DateTime.le start_dt r.dt ∧ DateTime.le r.dt end_dt := by
    intro r
    simp [inWindow, Bool.and_eq_true, and_assoc]
  refine ⟨hdecode, rfl, (List.card_toFinset _).symm, fun hnone => ?_, fun hrange => ?_⟩
  · have hnil : events.filter (inWindow customer_id start_dt end_dt) = [] :=
      List.filter_eq_nil_iff.mpr fun r hr hw => hnone r hr ((hdecode r).mp hw).1
    cases unique_per_day <;> simp [count_visits, hnil]
  · have hnil : events.filter (inWindow customer_id start_dt end_dt) = [] :=
      List.filter_eq_nil_iff.mpr fun r hr hw =>
        hrange (DateTime.le_trans' ((hdecode r).mp hw).2.1 ((hdecode r).mp hw).2.2)
    cases unique_per_day <;> simp [count_visits, hnil]

/-- Witness for C6 at concrete inputs: an unmatched customer and an empty
range both give count 0. -/
theorem C6_witness :
    count_visits [⟨"r1", "c9", ⟨⟨2025, 1, 1⟩, 0⟩, 2⟩] "c1"
        ⟨⟨2025, 1, 1⟩, 0⟩ ⟨⟨2025, 1, 2⟩, 0⟩ true = 0 ∧
    count_visits [⟨"r1", "c1", ⟨⟨2025, 1, 1⟩, 0⟩, 2⟩] "c1"
        ⟨⟨2025, 1, 2⟩, 0⟩ ⟨⟨2025, 1, 1⟩, 0⟩ false = 0 :=
  ⟨(C6_count_visits_spec [⟨"r1", "c9", ⟨⟨2025, 1, 1⟩, 0⟩, 2⟩] "c1"
      ⟨⟨2025, 1, 1⟩, 0⟩ ⟨⟨2025, 1, 2⟩, 0⟩ true).2.2.2.1 (by decide),
   (C6_count_visits_spec [⟨"r1", "c1", ⟨⟨2025, 1, 1⟩, 0⟩, 2⟩] "c1"
      ⟨⟨2025, 1, 2⟩, 0⟩ ⟨⟨2025, 1, 1⟩, 0⟩ false).2.2.2.2 (by decide)⟩

/-- C3 counterexample: with two rules of equal `min_visits`, the stored rule
list after `set_rules` is not strictly descending — consecutive entries tie. -/
theorem C3_counterexample :
    ¬List.Chain' (fun a b => b.min_visits < a.min_visits)
      (get_rules (set_rules [⟨2, 3, ⟨"VIP", 1⟩⟩, ⟨2, 3, ⟨"VIP", 1⟩⟩])) := by
  have heq : get_rules (set_rules [⟨2, 3, ⟨"VIP", 1⟩⟩, ⟨2, 3, ⟨"VIP", 1⟩⟩])
      = [⟨2, 3, ⟨"VIP", 1⟩⟩, ⟨2, 3, ⟨"VIP", 1⟩⟩] :=
    perm_pair_eq (List.mergeSort_perm _ _)
  rw [heq]
  simp only [List.chain'_cons, List.chain'_singleton, and_true]
  omega

/-- C3 (amended): after `set_rules`, `get_rules` returns a permutation of the
input sorted descending by `min_visits`, non-strictly — consecutive entries
satisfy `≥`, with ties possible. -/
theorem C3_amended_set_rules_sorted (rules : List LoyaltyRule) :
    (get_rules (set_rules rules)).Perm rules ∧
      List.Chain' (fun a b => b.min_visits ≤ a.min_visits)
        (get_rules (set_rules rules)) := by
  refine ⟨List.mergeSort_perm _ _, ?_⟩
  have hp := @List.sorted_mergeSort LoyaltyRule
    (fun a b : LoyaltyRule => decide (b.min_visits ≤ a.min_visits))
    (fun a b c hab hbc => by
      simp only [decide_eq_true_eq] at *
      omega)
    (fun a b => by
      simp only [Bool.or_eq_true, decide_eq_true_eq]
      omega)
    rules
  exact (hp.imp fun {a b} h => by simpa using h).chain'

/-- C8: `months_ago` returns a valid date exactly `n` calendar months before
`d` (month index decreases by exactly `n`, `n` may exceed 12), with the day
clamped to the length of the target month under the leap rule of the code; `n = 0`
returns the input unchanged; and the two documented clamps hold. -/
theorem C8_months_ago_spec :
    (∀ (d : Date) (n : Nat), d.Valid →
      (months_ago d n).Valid ∧
      ymIndexD (months_ago d n) = ymIndexD d - n ∧
      (months_ago d n).day
        = min d.day (monthLength (months_ago d n).year (months_ago d n).month) ∧
      (n = 0 → months_ago d n = d)) ∧
    months_ago ⟨2025, 3, 31⟩ 1 = ⟨2025, 2, 28⟩ ∧
    months_ago ⟨2024, 3, 31⟩ 1 = ⟨2024, 2, 29⟩ := by
  refine ⟨fun d n hd => ?_, ?_, ?_⟩
  · obtain ⟨h1, h2, h3, h4⟩ := hd
    have hs := normalizeYM_spec d.year ((d.month : Int) - (n : Int))
    have hb := hs.2 (by omega)
    have hmonth : 1 ≤ (months_ago d n).month ∧ (months_ago d n).month ≤ 12 := by
      simp only [months_ago]
      omega
    have hlen := monthLength_ge (months_ago d n).year (months_ago d n).month
      hmonth.1 hmonth.2
    have hday : (months_ago d n).day
        = min d.day (monthLength (months_ago d n).year (months_ago d n).month) := rfl
    refine ⟨⟨hmonth.1, hmonth.2, ?_, ?_⟩, ?_, hday, ?_⟩
    · rw [hday]
      omega
    · rw [hday]
      omega
    · simp only [months_ago, ymIndexD]
      omega
    · intro hn
      subst hn
      obtain ⟨dy, dm, dd⟩ := d
      simp only [months_ago, Nat.cast_zero, sub_zero]
      rw [normalizeYM_eq dy dm (by simp at h1 ⊢; omega)]
      simp at h4 ⊢
      omega
  · have e1 : normalizeYM 2025 ((((3 : Nat) : Int)) - (((1 : Nat) : Int))) = (2025, 2) := by
      rw [show (((3 : Nat) : Int)) - (((1 : Nat) : Int)) = 2 by norm_num]
      exact normalizeYM_eq 2025 2 (by norm_num)
    simp only [months_ago, e1]
    decide
  · have e1 : normalizeYM 2024 ((((3 : Nat) : Int)) - (((1 : Nat) : Int))) = (2024, 2) := by
      rw [show (((3 : Nat) : Int)) - (((1 : Nat) : Int)) = 2 by norm_num]
      exact normalizeYM_eq 2024 2 (by norm_num)
    simp only [months_ago, e1]
    decide

theorem find?_bool_and {α : Type} (l : List α) (p q : α → Bool) :
    (l.filter p).find? q = l.find? fun a => p a && q a := by
  rw [List.find?_filter]
  congr 1
  funext a
  by_cases hp : p a = true <;> by_cases hq : q a = true <;> simp [hp, hq]

/-- C1: `classify` counts the visits of the customer over
`[months_ago(as_of, window_months) 00:00:00, as_of 23:59:59]`, walks
`rules_desc` in stored order skipping rules whose `window_months` differs, and
returns the tier of the first applicable rule; with the default rules and
unique-per-day counting, 4 distinct-day visits give "Super VIP", 3 give "VIP",
and 0 or 1 give "Regular". -/
theorem C1_classify_spec (s : VisitsInWindowStrategy) (c : Customer) (as_of : Date)
    (events : List Reservation) :
    (classify s c as_of events =
      match (s.rules_desc.filter fun r => r.window_months == s.window_months).find?
          (fun r => r.applies ((count_visits events c.id
            ⟨months_ago as_of s.window_months, 0⟩ ⟨as_of, 86399⟩ s.unique_per_day : Nat) : Int)) with
      | some r => r.resulting_tier
      | none => ⟨"Regular", 0⟩) ∧
    (count_visits events c.id ⟨months_ago as_of 3, 0⟩ ⟨as_of, 86399⟩ true = 4 →
      classify ⟨defaultRules, 3, true⟩ c as_of events = ⟨"Super VIP", 2⟩) ∧
    (count_visits events c.id ⟨months_ago as_of 3, 0⟩ ⟨as_of, 86399⟩ true = 3 →
      classify ⟨defaultRules, 3, true⟩ c as_of events = ⟨"VIP", 1⟩) ∧
    (count_visits events c.id ⟨months_ago as_of 3, 0⟩ ⟨as_of, 86399⟩ true ≤ 1 →
      classify ⟨defaultRules, 3, true⟩ c as_of events = ⟨"Regular", 0⟩) := by
  refine ⟨?_, fun h => ?_, fun h => ?_, fun h => ?_⟩
  · simp only [classify]
    rw [find?_bool_and]
  · simp [classify, defaultRules, LoyaltyRule.applies, h]
  · simp [classify, defaultRules, LoyaltyRule.applies, h]
  · have h4 : ¬((4 : Int) ≤ ((count_visits events c.id
        ⟨months_ago as_of 3, 0⟩ ⟨as_of, 86399⟩ true : Nat) : Int)) := by
      omega
    have h2 : ¬((2 : Int) ≤ ((count_visits events c.id
        ⟨months_ago as_of 3, 0⟩ ⟨as_of, 86399⟩ true : Nat) : Int)) := by
      omega
    simp [classify, defaultRules, LoyaltyRule.applies, h4, h2]

theorem months_ago_2025_5_15 : months_ago ⟨2025, 5, 15⟩ 3 = ⟨2025, 2, 15⟩ := by
  have e1 : normalizeYM 2025 ((((5 : Nat) : Int)) - (((3 : Nat) : Int))) = (2025, 2) := by
    rw [show (((5 : Nat) : Int)) - (((3 : Nat) : Int)) = 2 by norm_num]
    exact normalizeYM_eq 2025 2 (by norm_num)
  simp only [months_ago, e1]
  decide

/-- Four distinct-day visits of customer c1 in spring 2025. -/
def sampleVisits4 : List Reservation :=
  [⟨"r1", "c1", ⟨⟨2025, 3, 1⟩, 72000⟩, 2⟩,
   ⟨"r2", "c1", ⟨⟨2025, 3, 8⟩, 72000⟩, 2⟩,
   ⟨"r3", "c1", ⟨⟨2025, 4, 2⟩, 72000⟩, 2⟩,
   ⟨"r4", "c1", ⟨⟨2025, 5, 1⟩, 72000⟩, 2⟩]

/-- Witness for C1: a customer with exactly 4 distinct-day visits in the
trailing 3 months is classified "Super VIP". -/
theorem C1_witness :
    count_visits sampleVisits4 "c1" ⟨months_ago ⟨2025, 5, 15⟩ 3, 0⟩
        ⟨⟨2025, 5, 15⟩, 86399⟩ true = 4 ∧
    classify ⟨defaultRules, 3, true⟩ ⟨"c1", "Ana", "", ""⟩ ⟨2025, 5, 15⟩ sampleVisits4
      = ⟨"Super VIP", 2⟩ := by
  have hc : count_visits sampleVisits4 "c1" ⟨months_ago ⟨2025, 5, 15⟩ 3, 0⟩
      ⟨⟨2025, 5, 15⟩, 86399⟩ true = 4 := by
    rw [months_ago_2025_5_15]
    decide
  exact ⟨hc, (C1_classify_spec ⟨defaultRules, 3, true⟩ ⟨"c1", "Ana", "", ""⟩
    ⟨2025, 5, 15⟩ sampleVisits4).2.1 hc⟩

/-- C2: the ranking has one `(customer, deduplicated window count)` row per
known customer, and consecutive rows are ordered by strictly more visits
first, ties broken by case-lowered name. -/
theorem C2_ranking_spec (events : List Reservation) (customers : List Customer)
    (months : Nat) (as_of : Date) (_hm : 1 ≤ months) :
    (ranking_top_customers events customers months as_of).Perm
      (customers.map fun c =>
        (c, count_visits events c.id ⟨months_ago as_of months, 0⟩ ⟨as_of, 86399⟩ true)) ∧
    List.Chain'
      (fun x y => y.2 < x.2 ∨ (x.2 = y.2 ∧ lowerStr x.1.name ≤ lowerStr y.1.name))
      (ranking_top_customers events customers months as_of) := by
  refine ⟨List.mergeSort_perm _ _, ?_⟩
  have htrans : ∀ a b c : Customer × Nat,
      rankLe a b = true → rankLe b c = true → rankLe a c = true := by
    intro a b c hab hbc
    simp only [rankLe, Bool.or_eq_true, Bool.and_eq_true, decide_eq_true_eq,
      beq_iff_eq] at *
    rcases hab with hab | ⟨habe, habs⟩ <;> rcases hbc with hbc | ⟨hbce, hbcs⟩
    · left; omega
    · left; omega
    · left; omega
    · exact Or.inr ⟨habe.trans hbce, le_trans habs hbcs⟩
  have htotal : ∀ a b : Customer × Nat, (rankLe a b || rankLe b a) = true := by
    intro a b
    simp only [rankLe, Bool.or_eq_true, Bool.and_eq_true, decide_eq_true_eq,
      beq_iff_eq]
    by_cases he : a.2 = b.2
    · rcases le_total (lowerStr a.1.name) (lowerStr b.1.name) with hs | hs
      · exact Or.inl (Or.inr ⟨he, hs⟩)
      · exact Or.inr (Or.inr ⟨he.symm, hs⟩)
    · have hne : a.2 < b.2 ∨ b.2 < a.2 := by omega
      rcases hne with h | h
      · exact Or.inr (Or.inl (by omega))
      · exact Or.inl (Or.inl (by omega))
  have hp := @List.sorted_mergeSort (Customer × Nat) rankLe htrans htotal
    (customers.map fun c =>
      (c, count_visits events c.id ⟨months_ago as_of months, 0⟩ ⟨as_of, 86399⟩ true))
  refine (hp.imp fun {x y} h => ?_).chain'
  simp only [rankLe, Bool.or_eq_true, Bool.and_eq_true, decide_eq_true_eq,
    beq_iff_eq] at h
  rcases h with h | ⟨he, hs⟩
  · left; omega
  · exact Or.inr ⟨he, hs⟩

/-- Witness for C2 at a concrete month count. -/
theorem C2_witness :
    (1 ≤ (3 : Nat)) ∧
    (ranking_top_customers [] [⟨"c1", "Ana", "", ""⟩] 3 ⟨2025, 5, 15⟩).Perm
      ([⟨"c1", "Ana", "", ""⟩].map fun c =>
        (c, count_visits [] c.id ⟨months_ago ⟨2025, 5, 15⟩ 3, 0⟩
          ⟨⟨2025, 5, 15⟩, 86399⟩ true)) :=
  ⟨by decide,
    (C2_ranking_spec [] [⟨"c1", "Ana", "", ""⟩] 3 ⟨2025, 5, 15⟩ (by decide)).1⟩

/-- C4: `visits_by_month` returns exactly `months` entries; the `i`-th key is
the calendar month `months - 1 - i` months before the month of `as_of` (so they
ascend consecutively up to the month of `as_of`); every value is the raw in-window
occurrence count for its month (no per-day dedup, hence ≥ 0), and months
without matching events carry 0. -/
theorem C4_visits_by_month_spec (events : List Reservation) (customer_id : String)
    (months : Nat) (as_of : Date) (_hm : 1 ≤ months) (_ha : as_of.Valid) :
    (visits_by_month events customer_id months as_of).length = months ∧
    (∀ i, ∀ hi : i < (visits_by_month events customer_id months as_of).length,
      1 ≤ ((visits_by_month events customer_id months as_of)[i].1).2 ∧
      ((visits_by_month events customer_id months as_of)[i].1).2 ≤ 12 ∧
      ymIndexP ((visits_by_month events customer_id months as_of)[i].1)
        = ymIndexD as_of - ((months : Int) - 1) + i) ∧
    (∀ p ∈ visits_by_month events customer_id months as_of,
      p.2 = (events.filter fun r =>
        inWindow customer_id
          ⟨add_months ⟨as_of.year, as_of.month, 1⟩ (-((months : Int) - 1)), 0⟩
          ⟨as_of, 86399⟩ r && decide (visitKey r = p.1)).length) ∧
    (∀ p ∈ visits_by_month events customer_id months as_of, 0 ≤ p.2) ∧
    (∀ p ∈ visits_by_month events customer_id months as_of,
      (∀ r ∈ events, r.customer_id = customer_id →
        DateTime.le ⟨add_months ⟨as_of.year, as_of.month, 1⟩ (-((months : Int) - 1)), 0⟩ r.dt →
        DateTime.le r.dt ⟨as_of, 86399⟩ → visitKey r ≠ p.1) → p.2 = 0) := by
  have hsmb := add_months_spec ⟨as_of.year, as_of.month, 1⟩ (-((months : Int) - 1))
  have hval : ∀ p ∈ visits_by_month events customer_id months as_of,
      p.2 = (events.filter fun r =>
        inWindow customer_id
          ⟨add_months ⟨as_of.year, as_of.month, 1⟩ (-((months : Int) - 1)), 0⟩
          ⟨as_of, 86399⟩ r && decide (visitKey r = p.1)).length := by
    intro p hp
    simp only [visits_by_month, List.mem_map] at hp
    obtain ⟨k, _hk, hpk⟩ := hp
    subst hpk
    exact countsFold_eq events customer_id _ _ k
  refine ⟨?_, fun i hi => ?_, hval, fun p _ => Nat.zero_le _, fun p hp hnone => ?_⟩
  · simp only [visits_by_month, List.length_map, monthKeys_length]
  · simp only [visits_by_month, List.length_map, monthKeys_length] at hi
    have hglen : i < (monthKeys
        (add_months ⟨as_of.year, as_of.month, 1⟩ (-((months : Int) - 1))) months).length := by
      rw [monthKeys_length]; exact hi
    have hkey := monthKeys_getElem months
      (add_months ⟨as_of.year, as_of.month, 1⟩ (-((months : Int) - 1)))
      hsmb.2.1 hsmb.2.2 i hi hglen
    simp only [visits_by_month, List.getElem_map]
    have hbase : ymIndexD (⟨as_of.year, as_of.month, 1⟩ : Date) = ymIndexD as_of := rfl
    refine ⟨hkey.1, hkey.2.1, ?_⟩
    rw [hkey.2.2]
    omega
  · rw [hval p hp]
    have hnil : events.filter (fun r =>
        inWindow customer_id
          ⟨add_months ⟨as_of.year, as_of.month, 1⟩ (-((months : Int) - 1)), 0⟩
          ⟨as_of, 86399⟩ r && decide (visitKey r = p.1)) = [] := by
      refine List.filter_eq_nil_iff.mpr fun r hr hc => ?_
      simp only [inWindow, Bool.and_eq_true, beq_iff_eq, decide_eq_true_eq] at hc
      exact hnone r hr hc.1.1.1 hc.1.1.2 hc.1.2 hc.2
    rw [hnil]
    rfl

/-- Witness for C4 at concrete inputs. -/
theorem C4_witness :
    (1 ≤ (2 : Nat)) ∧ Date.Valid ⟨2025, 2, 2⟩ ∧
      (visits_by_month [⟨"r1", "c1", ⟨⟨2025, 1, 5⟩, 3600⟩, 2⟩] "c1" 2 ⟨2025, 2, 2⟩).length = 2 :=
  ⟨by decide, by decide,
    (C4_visits_by_month_spec [⟨"r1", "c1", ⟨⟨2025, 1, 5⟩, 3600⟩, 2⟩] "c1" 2 ⟨2025, 2, 2⟩
      (by decide) (by decide)).1⟩

/-- C5: the `visits_by_month` window ends at end-of-day on `as_of`: any
reservation of the customer dated on `as_of` itself (any time of day, on or
after the window start) is counted in the month bucket of `as_of`, which is present
in the result with the full count of the bucket. -/
theorem C5_window_end_of_day (events : List Reservation) (customer_id : String)
    (months : Nat) (as_of : Date) (r : Reservation)
    (hm : 1 ≤ months) (ha : as_of.Valid) (hr : r ∈ events)
    (hcid : r.customer_id = customer_id) (hdate : r.dt.d = as_of) (hsec : r.dt.sec ≤ 86399)
    (hstart : DateTime.le
      ⟨add_months ⟨as_of.year, as_of.month, 1⟩ (-((months : Int) - 1)), 0⟩ r.dt) :
    ((as_of.year, as_of.month),
      (events.filter fun x =>
        inWindow customer_id
          ⟨add_months ⟨as_of.year, as_of.month, 1⟩ (-((months : Int) - 1)), 0⟩
          ⟨as_of, 86399⟩ x && decide (visitKey x = (as_of.year, as_of.month))).length)
      ∈ visits_by_month events customer_id months as_of ∧
    r ∈ events.filter fun x =>
        inWindow customer_id
          ⟨add_months ⟨as_of.year, as_of.month, 1⟩ (-((months : Int) - 1)), 0⟩
          ⟨as_of, 86399⟩ x && decide (visitKey x = (as_of.year, as_of.month)) := by
  have hsmb := add_months_spec ⟨as_of.year, as_of.month, 1⟩ (-((months : Int) - 1))
  have hbase : ymIndexD (⟨as_of.year, as_of.month, 1⟩ : Date) = ymIndexD as_of := rfl
  obtain ⟨ha1, ha2, _, _⟩ := ha
  have hend : DateTime.le r.dt ⟨as_of, 86399⟩ :=
    Or.inr ⟨by rw [hdate], Or.inr ⟨by rw [hdate], Or.inr ⟨by rw [hdate], hsec⟩⟩⟩
  constructor
  · simp only [visits_by_month, List.mem_map]
    refine ⟨(as_of.year, as_of.month), ?_, ?_⟩
    · rw [monthKeys_mem months _ hsmb.2.1 hsmb.2.2]
      refine ⟨ha1, ha2, ?_, ?_⟩ <;>
        simp only [ymIndexP, ymIndexD] at hbase hsmb ⊢ <;> omega
    · rw [countsFold_eq]
  · rw [List.mem_filter]
    refine ⟨hr, ?_⟩
    simp only [inWindow, Bool.and_eq_true, beq_iff_eq, decide_eq_true_eq, visitKey]
    exact ⟨⟨⟨hcid, hstart⟩, hend⟩, by rw [hdate]⟩

/-- Witness for C5: a reservation late on `as_of` itself is counted. -/
theorem C5_witness :
    ⟨"r1", "c1", ⟨⟨2025, 2, 2⟩, 86000⟩, 2⟩ ∈
      List.filter (fun x =>
        inWindow "c1"
          ⟨add_months ⟨(2025 : Int), 2, 1⟩ (-(((2 : Nat) : Int) - 1)), 0⟩
          ⟨⟨2025, 2, 2⟩, 86399⟩ x && decide (visitKey x = ((2025 : Int), 2)))
        [⟨"r1", "c1", ⟨⟨2025, 2, 2⟩, 86000⟩, 2⟩] :=
  (C5_window_end_of_day [⟨"r1", "c1", ⟨⟨2025, 2, 2⟩, 86000⟩, 2⟩] "c1" 2 ⟨2025, 2, 2⟩
    ⟨"r1", "c1", ⟨⟨2025, 2, 2⟩, 86000⟩, 2⟩ (by decide) (by decide) (by simp)
    (by decide) (by decide) (by decide) (by decide)).2

/-- C10: the bucket values of `visits_by_month` sum to the raw number of the
reservations of the customer between the first day of the starting month of the window
at midnight and `as_of` at 23:59:59 — the buckets partition the in-window
events. -/
theorem C10_visits_by_month_sum (events : List Reservation) (customer_id : String)
    (months : Nat) (as_of : Date) (_hm : 1 ≤ months) (ha : as_of.Valid)
    (hev : ∀ r ∈ events, r.dt.d.Valid) :
    ((visits_by_month events customer_id months as_of).map fun p => p.2).sum
      = count_visits events customer_id
          ⟨add_months ⟨as_of.year, as_of.month, 1⟩ (-((months : Int) - 1)), 0⟩
          ⟨as_of, 86399⟩ false := by
  have hsmb := add_months_spec ⟨as_of.year, as_of.month, 1⟩ (-((months : Int) - 1))
  have hbase : ymIndexD (⟨as_of.year, as_of.month, 1⟩ : Date) = ymIndexD as_of := rfl
  obtain ⟨ha1, ha2, _, _⟩ := ha
  simp only [visits_by_month, List.map_map, count_visits, Bool.false_eq_true, if_false]
  have hcomp : ((fun p : (Int × Nat) × Nat => p.2) ∘ fun k =>
      (k, countsFold events customer_id
        ⟨add_months ⟨as_of.year, as_of.month, 1⟩ (-((months : Int) - 1)), 0⟩
        ⟨as_of, 86399⟩ k))
      = fun k => countsFold events customer_id
        ⟨add_months ⟨as_of.year, as_of.month, 1⟩ (-((months : Int) - 1)), 0⟩
        ⟨as_of, 86399⟩ k := rfl
  rw [hcomp]
  rw [List.map_congr_left fun k _ => countsFold_eq events customer_id
    ⟨add_months ⟨as_of.year, as_of.month, 1⟩ (-((months : Int) - 1)), 0⟩
    ⟨as_of, 86399⟩ k]
  rw [sum_buckets _ events _ (monthKeys_nodup months _)]
  apply congrArg
  apply List.filter_congr
  intro r hr
  by_cases hw : inWindow customer_id
      ⟨add_months ⟨as_of.year, as_of.month, 1⟩ (-((months : Int) - 1)), 0⟩
      ⟨as_of, 86399⟩ r = true
  · have hw' := hw
    simp only [inWindow, Bool.and_eq_true, beq_iff_eq, decide_eq_true_eq] at hw'
    have hrv := hev r hr
    have hyb := window_ym_bounds
      (add_months ⟨as_of.year, as_of.month, 1⟩ (-((months : Int) - 1))) as_of r.dt
      hrv.1 hrv.2.1 ha1 ha2 hsmb.2.1 hsmb.2.2 hw'.1.2 hw'.2
    have hmem : visitKey r ∈ monthKeys
        (add_months ⟨as_of.year, as_of.month, 1⟩ (-((months : Int) - 1))) months := by
      rw [monthKeys_mem months _ hsmb.2.1 hsmb.2.2]
      refine ⟨hrv.1, hrv.2.1, ?_, ?_⟩ <;>
        simp only [ymIndexP, ymIndexD, visitKey] at hyb hsmb hbase ⊢ <;> omega
    rw [hw, Bool.true_and]
    exact decide_eq_true hmem
  · rw [Bool.eq_false_iff.mpr hw, Bool.false_and]

/-- Witness for C10 at concrete inputs. -/
theorem C10_witness :
    ((visits_by_month [⟨"r1", "c1", ⟨⟨2025, 1, 5⟩, 3600⟩, 2⟩] "c1" 2 ⟨2025, 2, 2⟩).map
        fun p => p.2).sum
      = count_visits [⟨"r1", "c1", ⟨⟨2025, 1, 5⟩, 3600⟩, 2⟩] "c1"
          ⟨add_months ⟨(2025 : Int), 2, 1⟩ (-(((2 : Nat) : Int) - 1)), 0⟩
          ⟨⟨2025, 2, 2⟩, 86399⟩ false :=
  C10_visits_by_month_sum [⟨"r1", "c1", ⟨⟨2025, 1, 5⟩, 3600⟩, 2⟩] "c1" 2 ⟨2025, 2, 2⟩
    (by decide) (by decide) (by decide)

/-- Witness for C8: the general part applied at a concrete valid date. -/
theorem C8_witness :
    Date.Valid ⟨2025, 5, 10⟩ ∧ (months_ago ⟨2025, 5, 10⟩ 2).Valid ∧
      ymIndexD (months_ago ⟨2025, 5, 10⟩ 2) = ymIndexD ⟨2025, 5, 10⟩ - (2 : Nat) :=
  ⟨by decide, (C8_months_ago_spec.1 ⟨2025, 5, 10⟩ 2 (by decide)).1,
    (C8_months_ago_spec.1 ⟨2025, 5, 10⟩ 2 (by decide)).2.1⟩

end Reservas
